import Mathlib

/-!
Verification of the meeting-record normalization engine of
`gavel_meeting_tool.py` (Gavel Meeting Exporter).

The Python source is shallowly embedded below.  Python strings are Lean
`String`s (backed by `List Char`); Python `str.replace`, `str.strip`,
`str.upper`, `str.lower`, `str.title` are modelled by executable functions
on character lists; a dictionary field that may be absent is modelled by an
`Option` when key presence is observable (the `ShortTitle` key), and by the
empty string when the code itself defaults it to the empty string.
`datetime.strptime` with the two concrete format strings used by the source
is modelled by deterministic character-list parsers that follow the regexes
CPython builds for those formats, including the one-or-two digit fields and
the final day-of-month and second-of-minute validation performed by the
`datetime` constructor.
-/

namespace Gavel

/-- Python whitespace characters recognised by `str.strip` (ASCII). -/
def pyWs (c : Char) : Bool :=
  c == ' ' || c == '\t' || c == '\n' || c == '\r' || c == '\x0b' || c == '\x0c'

/-- Substring test on character lists: Python `needle in hay`. -/
def substrB (needle : List Char) : List Char → Bool
  | [] => needle.isPrefixOf []
  | c :: cs => needle.isPrefixOf (c :: cs) || substrB needle cs

/-- One fuel-indexed pass of Python `str.replace old new`: leftmost
non-overlapping occurrences, scanning resumes after the inserted
replacement.  Each step consumes at least one character of the subject, so
fuel equal to the length of the subject always suffices. -/
def pyReplaceGo (old new : List Char) : Nat → List Char → List Char
  | _, [] => []
  | 0, l => l
  | fuel + 1, c :: cs =>
    if old.isPrefixOf (c :: cs) then
      new ++ pyReplaceGo old new fuel (cs.drop (old.length - 1))
    else
      c :: pyReplaceGo old new fuel cs

/-- Python `l.replace(old, new)` on character lists. -/
def pyReplaceL (old new l : List Char) : List Char :=
  pyReplaceGo old new l.length l

/-- Python `s.replace(old, new)` on strings. -/
def pyReplace (s old new : String) : String :=
  ⟨pyReplaceL old.data new.data s.data⟩

/-- Python `s.strip()` on character lists. -/
def pyStripL (l : List Char) : List Char :=
  ((l.dropWhile pyWs).reverse.dropWhile pyWs).reverse

/-- Python `s.strip()`. -/
def pyStrip (s : String) : String := ⟨pyStripL s.data⟩

/-- Python `s.upper()` (ASCII). -/
def pyUpper (s : String) : String := ⟨s.data.map Char.toUpper⟩

/-- Python `s.lower()` (ASCII). -/
def pyLower (s : String) : String := ⟨s.data.map Char.toLower⟩

/-- Helper for `pyTitle`: tracks whether the previous character was
alphabetic. -/
def pyTitleGo : Bool → List Char → List Char
  | _, [] => []
  | prevAlpha, c :: cs =>
    (if c.isAlpha then (if prevAlpha then c.toLower else c.toUpper) else c)
      :: pyTitleGo c.isAlpha cs

/-- Python `s.title()` (ASCII): the first letter of each run of letters is
upper-cased, the remaining letters lower-cased. -/
def pyTitle (s : String) : String := ⟨pyTitleGo false s.data⟩

/-- The streaming annotation removed from CSV descriptions. -/
def aklMarker : List Char := "**Streamed live on AKL.tv**".data

/-- The artifact `" |  | "` collapsed once after marker removal. -/
def sep6 : List Char := " |  | ".data

/-- The separator `" | "`. -/
def sep3 : List Char := " | ".data

/-- The artifact `" | |"` collapsed by the while loop. -/
def sep4 : List Char := " | |".data

/-- The replacement `" |"` used by the while loop. -/
def sep2 : List Char := " |".data

/-- The `while " | |" in description` loop of `build_description`; each
iteration with an occurrence strictly shortens the list, so fuel equal to
the initial length always suffices. -/
def collapseGo : Nat → List Char → List Char
  | 0, l => l
  | fuel + 1, l =>
    if substrB sep4 l then collapseGo fuel (pyReplaceL sep4 sep2 l) else l

/-- The `for_csv` post-processing of `build_description` (lines 274-281 of
the source): remove the streaming marker, collapse `" |  | "` once, strip,
collapse `" | |"` while present, drop a trailing `" | "`. -/
def stripStreamingL (l : List Char) : List Char :=
  let d1 := pyReplaceL aklMarker [] l
  let d2 := pyReplaceL sep6 sep3 d1
  let d3 := pyStripL d2
  let d4 := collapseGo d3.length d3
  if sep3.isSuffixOf d4 then d4.take (d4.length - 3) else d4

/-- String version of `stripStreamingL`. -/
def stripStreaming (s : String) : String := ⟨stripStreamingL s.data⟩

/-- One agenda-item fragment of a meeting (`MeetingSlices` entry).
`billRoot` and `sliceHighliteText` are read with `slice.get(key, "")` in
the source, so an absent key is identified with the empty string;
`ShortTitle` key presence is observable (`"ShortTitle" in slice`), so it is
an `Option`. -/
structure Slice where
  billRoot : String
  sliceHighliteText : String
  shortTitle : Option String
deriving DecidableEq

/-- A raw meeting record, with the fields the normalization engine reads.
Fields read via `meeting.get(key, "")` (or compared against literals) are
plain strings with the empty string for an absent key; `MeetingCanceled`
is read with default `False`.  `displayDate` models the injected
`_display_date` key. -/
structure Meeting where
  chamber : String
  meetingTitle : String
  sponsorType : String
  meetingSponsor : String
  meetingDate : String
  meetingTime : String
  location : String
  meetingCanceled : Bool
  meetingSlices : List Slice
  displayDate : String
deriving DecidableEq

/-- `"MEETING CANCELED" in highlight_text.upper()`. -/
def hlCanceled (ht : String) : Bool :=
  substrB "MEETING CANCELED".data (pyUpper ht).data

/-- Loop state of the first pass of `extract_bills_with_details`:
accumulated bill groups, the current bill cursor (`""` models Python
`None`; the cursor is only ever set to a non-empty `BillRoot`), its
accumulated details, and the used-details set (queried by membership
only). -/
structure AggSt where
  billDetails : List (String × List String)
  currentBill : String
  currentDetails : List String
  usedDetails : List String
deriving DecidableEq

/-- Lines 187-194 of the source: on a new bill, flush the previous group if
it has at least one detail, then reset the cursor. -/
def aggNewBill (br : String) (st : AggSt) : AggSt :=
  let fl :=
    if st.currentBill ≠ "" ∧ st.currentDetails ≠ [] then
      { st with billDetails := st.billDetails ++ [(st.currentBill, st.currentDetails)] }
    else st
  { fl with currentBill := br, currentDetails := [] }

/-- Lines 200-202 of the source: record the highlight in the used set and
append it to the current details. -/
def aggAddDetail (ht : String) (st : AggSt) : AggSt :=
  { st with usedDetails := st.usedDetails ++ [ht],
            currentDetails := st.currentDetails ++ [ht] }

/-- Body of the first loop of `extract_bills_with_details`
(lines 178-202). -/
def aggStep (st : AggSt) (s : Slice) : AggSt :=
  if s.billRoot = "" ∧ s.sliceHighliteText = "" then st
  else
    let st1 :=
      if s.billRoot ≠ "" ∧ s.billRoot ≠ st.currentBill then aggNewBill s.billRoot st
      else st
    if st1.currentBill ≠ "" ∧ s.sliceHighliteText ≠ "" ∧
        hlCanceled s.sliceHighliteText = false ∧
        ¬(s.billRoot ≠ "" ∧ s.billRoot = s.sliceHighliteText) then
      aggAddDetail s.sliceHighliteText st1
    else st1

/-- Body of the second loop of `extract_bills_with_details`
(lines 210-217). -/
def genStep (used : List String) (acc : List String) (s : Slice) : List String :=
  if s.billRoot = "" ∧ s.sliceHighliteText ≠ "" ∧
      hlCanceled s.sliceHighliteText = false ∧
      s.sliceHighliteText ∉ used ∧ s.sliceHighliteText ∉ acc then
    acc ++ [s.sliceHighliteText]
  else acc

/-- `extract_bills_with_details` (lines 166-219): returns the bill groups
and the general items. -/
def extract_bills_with_details (slices : List Slice) :
    List (String × List String) × List String :=
  let fin := slices.foldl aggStep ⟨[], "", [], []⟩
  let bd :=
    if fin.currentBill ≠ "" ∧ fin.currentDetails ≠ [] then
      fin.billDetails ++ [(fin.currentBill, fin.currentDetails)]
    else fin.billDetails
  (bd, slices.foldl (genStep fin.usedDetails) [])

/-- The short-title lookup loop of `build_description` (lines 246-250):
first slice whose `BillRoot` equals the bill and which has a `ShortTitle`
key at all; its (possibly empty) `ShortTitle`, else the empty string. -/
def findShortTitle (bill : String) : List Slice → String
  | [] => ""
  | s :: rest =>
    if s.billRoot == bill && s.shortTitle.isSome then s.shortTitle.getD ""
    else findShortTitle bill rest

/-- Rendering of one bill group inside `build_description`
(lines 240-263). -/
def billText (slices : List Slice) (p : String × List String) : String :=
  if p.2 ≠ [] then
    let st := findShortTitle p.1 slices
    let bt := if st ≠ "" then p.1 ++ " " ++ st else p.1
    bt ++ " " ++ String.intercalate " " p.2
  else p.1

/-- `build_description` (lines 221-283). -/
def build_description (m : Meeting) (forCsv : Bool) : String :=
  let parts0 : List String :=
    if m.meetingCanceled then ["** MEETING CANCELED **"] else []
  let ex := extract_bills_with_details m.meetingSlices
  let parts1 :=
    if ex.1 ≠ [] then
      parts0 ++ ["Bills: " ++ String.intercalate ", " (ex.1.map (billText m.meetingSlices))]
    else parts0
  let parts2 :=
    if ex.2 ≠ [] then parts1 ++ [String.intercalate " | " ex.2] else parts1
  let desc := String.intercalate " | " parts2
  if forCsv then stripStreaming desc else desc

/-- `should_skip_event` (lines 285-294). -/
def should_skip_event (m : Meeting) : Bool :=
  m.meetingSlices.any fun s =>
    pyLower (pyStrip s.sliceHighliteText) == "no meeting scheduled"

/-- `generate_custom_id` (lines 296-306). -/
def generate_custom_id (m : Meeting) : String :=
  if m.meetingDate = "" ∨ m.meetingTime = "" then "unknown"
  else
    m.chamber ++ "-" ++ m.meetingSponsor ++
      pyReplace m.meetingDate "-" "" ++ pyReplace m.meetingTime ":" ""

/-- Result of parsing `"%m/%d/%Y"`. -/
structure DateV where
  year : Nat
  month : Nat
  day : Nat
deriving DecidableEq

/-- Result of parsing `"%Y-%m-%d %H:%M:%S"`. -/
structure DateTimeV where
  year : Nat
  month : Nat
  day : Nat
  hour : Nat
  minute : Nat
  second : Nat
deriving DecidableEq

/-- Decimal digit value of a character, if any. -/
def digit? (c : Char) : Option Nat :=
  if c.isDigit then some (c.toNat - '0'.toNat) else none

/-- CPython strptime `%Y`: exactly four digits. -/
def parse4Digits : List Char → Option (Nat × List Char)
  | a :: b :: c :: d :: rest =>
    match digit? a, digit? b, digit? c, digit? d with
    | some x, some y, some z, some w => some (x * 1000 + y * 100 + z * 10 + w, rest)
    | _, _, _, _ => none
  | _ => none

/-- CPython strptime one-or-two digit numeric field.  The compiled regex
tries the two-digit alternatives first and falls back to a single digit;
because every field is followed by a non-digit literal (or the end of the
input), taking two digits when their value is in `[lo2, hi2]` and otherwise
one digit with value at least `lo1` is equivalent to the regex with
backtracking. -/
def parse2or1 (lo2 hi2 lo1 : Nat) : List Char → Option (Nat × List Char)
  | a :: b :: rest =>
    match digit? a, digit? b with
    | some x, some y =>
      let v := 10 * x + y
      if lo2 ≤ v ∧ v ≤ hi2 then some (v, rest)
      else if lo1 ≤ x then some (x, b :: rest)
      else none
    | some x, none => if lo1 ≤ x then some (x, b :: rest) else none
    | none, _ => none
  | [a] =>
    match digit? a with
    | some x => if lo1 ≤ x then some (x, []) else none
    | none => none
  | [] => none

/-- Literal separator in a strptime format. -/
def expectChar (c : Char) : List Char → Option (List Char)
  | x :: rest => if x = c then some rest else none
  | [] => none

/-- Whitespace in a strptime format matches one or more whitespace
characters of the input. -/
def expectWs : List Char → Option (List Char)
  | x :: rest => if pyWs x then some (rest.dropWhile pyWs) else none
  | [] => none

/-- Gregorian leap year. -/
def isLeap (y : Nat) : Bool :=
  y % 4 == 0 && (y % 100 != 0 || y % 400 == 0)

/-- Length of a month, used by the `datetime` constructor validation. -/
def daysInMonth (y m : Nat) : Nat :=
  if m = 2 then (if isLeap y then 29 else 28)
  else if m = 4 ∨ m = 6 ∨ m = 9 ∨ m = 11 then 30
  else 31

/-- `datetime.strptime(s, "%Y-%m-%d %H:%M:%S")`, as an `Option`: the regex
match (two-digit seconds up to 61 as in CPython) followed by the
constructor checks `1 <= year`, `day <= daysInMonth`, `second <= 59`. -/
def parseYmdHms (s : String) : Option DateTimeV := do
  let (y, l1) ← parse4Digits s.data
  let l2 ← expectChar '-' l1
  let (mo, l3) ← parse2or1 1 12 1 l2
  let l4 ← expectChar '-' l3
  let (d, l5) ← parse2or1 1 31 1 l4
  let l6 ← expectWs l5
  let (h, l7) ← parse2or1 0 23 0 l6
  let l8 ← expectChar ':' l7
  let (mi, l9) ← parse2or1 0 59 0 l8
  let l10 ← expectChar ':' l9
  let (sec, l11) ← parse2or1 0 61 0 l10
  if l11 = [] ∧ 1 ≤ y ∧ d ≤ daysInMonth y mo ∧ sec ≤ 59 then
    some ⟨y, mo, d, h, mi, sec⟩
  else none

/-- `datetime.strptime(s, "%m/%d/%Y")`, as an `Option`. -/
def parseMdY (s : String) : Option DateV := do
  let (mo, l1) ← parse2or1 1 12 1 s.data
  let l2 ← expectChar '/' l1
  let (d, l3) ← parse2or1 1 31 1 l2
  let l4 ← expectChar '/' l3
  let (y, l5) ← parse4Digits l4
  if l5 = [] ∧ 1 ≤ y ∧ d ≤ daysInMonth y mo then some ⟨y, mo, d⟩ else none

/-- Zero-padded two-digit rendering (strftime numeric field). -/
def pad2 (n : Nat) : String := (if n < 10 then "0" else "") ++ toString n

/-- Zero-padded four-digit rendering (strftime `%Y`). -/
def pad4 (n : Nat) : String :=
  (if n < 10 then "000" else if n < 100 then "00" else if n < 1000 then "0" else "")
    ++ toString n

/-- `dt.strftime("%Y-%m-%d %H:%M:%S")`. -/
def formatYmdHms (dt : DateTimeV) : String :=
  pad4 dt.year ++ "-" ++ pad2 dt.month ++ "-" ++ pad2 dt.day ++ " " ++
    pad2 dt.hour ++ ":" ++ pad2 dt.minute ++ ":" ++ pad2 dt.second

/-- `dt.strftime("%Y-%m-%d %I:%M %p")`: twelve-hour clock with AM/PM. -/
def formatGenericDT (dt : DateTimeV) : String :=
  let h12 := if dt.hour % 12 = 0 then 12 else dt.hour % 12
  pad4 dt.year ++ "-" ++ pad2 dt.month ++ "-" ++ pad2 dt.day ++ " " ++
    pad2 h12 ++ ":" ++ pad2 dt.minute ++ " " ++ (if dt.hour < 12 then "AM" else "PM")

/-- `get_chamber` (lines 115-122). -/
def get_chamber (m : Meeting) : Option String :=
  if m.chamber = "S" then some "Senate"
  else if m.chamber = "H" then some "House"
  else none

/-- `build_title` (lines 124-142). -/
def build_title (m : Meeting) : String :=
  if m.meetingTitle = "" then ""
  else
    let committee := pyTitle m.meetingTitle
    match get_chamber m with
    | some ch =>
      if m.sponsorType = "Standing Committee" then ch ++ " " ++ committee ++ " Committee"
      else if m.sponsorType = "Special Committee" then
        ch ++ " " ++ committee ++ " Special Committee"
      else if m.sponsorType = "Finance SubCommittee" then
        ch ++ " Finance: " ++ committee ++ " Subcommittee"
      else pyTitle m.meetingTitle
    | none => pyTitle m.meetingTitle

/-- One data row of `format_meetings_csv` (lines 732-771), as the list of
its fields. -/
def csvRow (includeDate : Bool) (m : Meeting) : List String :=
  let title := build_title m
  let status := if m.meetingCanceled then "CANCELED" else "Active"
  let formattedTime :=
    if m.meetingDate ≠ "" ∧ m.meetingTime ≠ "" then
      match parseYmdHms (m.meetingDate ++ " " ++ m.meetingTime) with
      | some dt => formatGenericDT dt
      | none => m.meetingDate ++ " " ++ m.meetingTime
    else ""
  let ex := extract_bills_with_details m.meetingSlices
  let bills :=
    if ex.1 ≠ [] then String.intercalate ", " (ex.1.map Prod.fst) else ""
  let row := [title, status, m.location, formattedTime, bills,
              build_description m true]
  if includeDate then m.displayDate :: row else row

/-- `format_meetings_csv` (lines 718-773), as the list of CSV records
(header row followed by data rows); CSV quoting is serialization detail and
is not modelled. -/
def format_meetings_csv (meetings : List Meeting) (includeDate : Bool) :
    List (List String) :=
  let fields := ["title", "status", "location", "time", "bills", "description"]
  (if includeDate then "date" :: fields else fields) ::
    (meetings.filter fun m => should_skip_event m = false).map (csvRow includeDate)

/-- Per-meeting row of `format_meetings_invintus_csv` (lines 795-851 of the
source, the second of the two identical definitions; `none` models the
`continue` paths). -/
def invintusRow (encoders categories : List (String × String))
    (runtime ltbValue : String) (m : Meeting) : Option (List String) :=
  if should_skip_event m then none
  else if m.meetingDate = "" ∨ m.meetingTime = "" then none
  else
    match parseYmdHms (m.meetingDate ++ " " ++ m.meetingTime) with
    | none => none
    | some dt =>
      let customId := generate_custom_id m
      match encoders.lookup customId with
      | none => none
      | some encVal =>
        some [build_title m, customId, formatYmdHms dt,
              build_description m true,
              (if encVal ≠ "" then encVal else ""),
              ((categories.lookup customId).getD "Gavel Alaska"),
              m.location, runtime, ltbValue]

/-- `format_meetings_invintus_csv` (lines 783-853): header row followed by
one row per included meeting.  The encoder and category dictionaries are
association lists. -/
def format_meetings_invintus_csv (meetings : List Meeting)
    (encoders categories : List (String × String))
    (runtime : String) (liveToBreak : Bool) : List (List String) :=
  ["title", "customID", "startDateTime", "description", "encoder",
   "category", "location", "estRuntime", "liveToBreak"] ::
    meetings.filterMap
      (invintusRow encoders categories runtime (if liveToBreak then "TRUE" else "FALSE"))

/-- Days since 0000-12-31 in the proleptic Gregorian calendar
(`date.toordinal` of CPython); only differences and order are used. -/
def daysBeforeMonth (m : Nat) : Nat :=
  [0, 31, 59, 90, 120, 151, 181, 212, 243, 273, 304, 334].getD (m - 1) 0

/-- Ordinal day number of a parsed date (`datetime.toordinal`). -/
def toOrdinal (d : DateV) : Nat :=
  365 * (d.year - 1) + (d.year - 1) / 4 - (d.year - 1) / 100 + (d.year - 1) / 400 +
    daysBeforeMonth d.month +
    (if 2 < d.month ∧ isLeap d.year = true then 1 else 0) + d.day

/-- `current.strftime("%m/%d/%Y")` used for the keys of the range result. -/
def strftimeMdY (d : DateV) : String :=
  pad2 d.month ++ "/" ++ pad2 d.day ++ "/" ++ pad4 d.year

/-- `current += datetime.timedelta(days=1)`. -/
def nextDay (d : DateV) : DateV :=
  if d.day < daysInMonth d.year d.month then ⟨d.year, d.month, d.day + 1⟩
  else if d.month < 12 then ⟨d.year, d.month + 1, 1⟩
  else ⟨d.year + 1, 1, 1⟩

/-- The `while current <= end` loop of `get_meeting_range`
(lines 106-111).  Each iteration advances `current` by one day, so fuel
`span + 1` always suffices; the fuel check sits behind the loop guard so a
run that never enters the loop is fuel-independent. -/
def rangeLoop {α : Type} (fetch : String → α) : Nat → DateV → DateV → List (String × α)
  | fuel, cur, stop =>
    if toOrdinal cur ≤ toOrdinal stop then
      match fuel with
      | 0 => []
      | f + 1 => (strftimeMdY cur, fetch (strftimeMdY cur)) :: rangeLoop fetch f (nextDay cur) stop
    else []

/-- `get_meeting_range` (lines 90-113), parameterised by the per-day fetch
(`get_meetings` performs network requests and is out of scope); the result
dictionary is an association list in insertion order. -/
def get_meeting_range {α : Type} (fetch : String → α) (startDate endDate : String) :
    Except String (List (String × α)) :=
  match parseMdY startDate, parseMdY endDate with
  | some s, some e =>
    if (toOrdinal e : Int) - (toOrdinal s : Int) > 30 then
      Except.error "Date range too large. Maximum range is 30 days."
    else
      Except.ok (rangeLoop fetch (((toOrdinal e : Int) - (toOrdinal s : Int) + 1).toNat) s e)
  | _, _ => Except.error "Invalid date format. Please use MM/DD/YYYY."

/-- Modelled from the spec wording of the stable identifier (for
refutation): direct concatenation of chamber code, sponsor code, stripped
date and stripped time with no delimiter characters between the
components. -/
def claimStableId (m : Meeting) : String :=
  if m.meetingDate = "" ∨ m.meetingTime = "" then "unknown"
  else
    m.chamber ++ m.meetingSponsor ++
      String.mk (m.meetingDate.data.filter fun c => c ≠ '-') ++
      String.mk (m.meetingTime.data.filter fun c => c ≠ ':')

/-- Modelled from the spec wording of the short-title lookup (for
refutation): the first slice in the original sequence carrying the bill
identifier and a non-empty short title, else none. -/
def claimShortTitle (bill : String) (slices : List Slice) : Option String :=
  (slices.find? fun s => s.billRoot == bill && s.shortTitle.getD "" != "").map
    fun s => s.shortTitle.getD ""

/-- Modelled from the spec wording of the bill-group rendering (for
refutation): bill, optional non-empty short title, then the space-joined
details. -/
def claimBillRender (slices : List Slice) (p : String × List String) : String :=
  match claimShortTitle p.1 slices with
  | some st => p.1 ++ " " ++ st ++ " " ++ String.intercalate " " p.2
  | none => p.1 ++ " " ++ String.intercalate " " p.2

/-- Amended short-title lookup, phrased independently of the loop: the
first slice carrying the bill identifier that has a `ShortTitle` key at
all (its value may be empty). -/
def amendedShortTitle (bill : String) (slices : List Slice) : String :=
  match slices.find? (fun s => s.billRoot == bill && s.shortTitle.isSome) with
  | some s => s.shortTitle.getD ""
  | none => ""

/-- A detail string `d` of a bill group `b` originates from some slice of
the sequence: that slice carries `d` as highlight text and carries either
the group's bill identifier or no bill identifier at all. -/
def Origin (univ : List Slice) (b d : String) : Prop :=
  ∃ s, s ∈ univ ∧ s.sliceHighliteText = d ∧ (s.billRoot = b ∨ s.billRoot = "")

/-- Invariant of the first aggregator pass: every accumulated detail
(already flushed or still current) originates from a slice of the sequence
and has been recorded in the used-details set. -/
def AggInv (univ : List Slice) (st : AggSt) : Prop :=
  (∀ b ds, (b, ds) ∈ st.billDetails → ∀ d ∈ ds, Origin univ b d ∧ d ∈ st.usedDetails) ∧
  (∀ d ∈ st.currentDetails, Origin univ st.currentBill d ∧ d ∈ st.usedDetails)

/-- The slice sequence of the spec's end-to-end aggregator example. -/
def slC1 : List Slice :=
  [⟨"HB1", "HB1", none⟩, ⟨"HB1", "Public testimony", none⟩, ⟨"", "Overview", none⟩]

/-- Slices where a bill-less slice carries the bill identifier as highlight
text while the bill itself accumulates no details. -/
def slC5 : List Slice :=
  [⟨"", "HB1", none⟩, ⟨"HB1", "HB1", none⟩]

/-- A meeting with chamber, sponsor, date and time all present. -/
def mC3 : Meeting :=
  ⟨"S", "finance", "Standing Committee", "FIN", "2025-04-22", "13:30:00",
   "Room 532", false, [], ""⟩

/-- A meeting whose first slice for the bill has an empty `ShortTitle`
value while a later slice for the same bill has a non-empty one. -/
def mC6 : Meeting :=
  ⟨"S", "finance", "Standing Committee", "FIN", "2025-04-22", "13:30:00",
   "Room 532", false,
   [⟨"HB1", "testimony", some ""⟩, ⟨"HB1", "more", some "An Act"⟩], ""⟩



/-- The first character, if any, is not Python whitespace. -/
def headOkL (l : List Char) : Prop :=
  ∀ c, l.head? = some c → pyWs c = false

/-- The last character, if any, is not Python whitespace. -/
def lastOkL (l : List Char) : Prop :=
  ∀ c, l.getLast? = some c → pyWs c = false

/-! ## Helper lemmas -/

/-- Replacing a single character by the empty string is filtering it
out. -/
theorem pyReplaceGo_single_nil (c : Char) :
    ∀ (l : List Char) (fuel : Nat), l.length ≤ fuel →
      pyReplaceGo [c] [] fuel l = l.filter (fun x => x ≠ c)
  | [], fuel, _ => by cases fuel <;> simp [pyReplaceGo]
  | x :: xs, 0, h => by simp at h
  | x :: xs, fuel + 1, h => by
    have hx : xs.length ≤ fuel := by simpa using h
    have ih := pyReplaceGo_single_nil c xs fuel hx
    by_cases hc : x = c
    · have hpre : ([c].isPrefixOf (x :: xs)) = true := by
        simp [List.isPrefixOf, hc]
      simp [pyReplaceGo, hpre, List.filter, hc, ih]
    · have hpre : ([c].isPrefixOf (x :: xs)) = false := by
        simp [List.isPrefixOf]
        exact fun hh => absurd hh.symm hc
      simp [pyReplaceGo, hpre, List.filter, hc, ih]

/-- The short-title loop of the source equals the first-slice-with-key
formulation. -/
theorem findShortTitle_eq (bill : String) :
    ∀ slices : List Slice, findShortTitle bill slices = amendedShortTitle bill slices
  | [] => by simp [findShortTitle, amendedShortTitle]
  | s :: rest => by
    have ih := findShortTitle_eq bill rest
    by_cases h : (s.billRoot == bill && s.shortTitle.isSome) = true
    · simp [findShortTitle, amendedShortTitle, h, List.find?_cons_of_pos]
    · rw [amendedShortTitle, List.find?_cons_of_neg _ (by simpa using h)]
      rw [findShortTitle, if_neg (by simpa using h), ih, amendedShortTitle]

/-! ## C1 -/

/-- C1: the claim expects bill groups with details only
Public testimony and general items only Overview for the example slice
sequence; the code returns something else, so the claimed equality is
false. -/
theorem c1_counterexample :
    extract_bills_with_details slC1 ≠ ([("HB1", ["Public testimony"])], ["Overview"]) := by
  decide

/-- C1 amended: on the example slice sequence the Slice Aggregator returns
the single bill group HB1 with details Public testimony and Overview, and
no general items: the bill-less Overview slice is absorbed into the
still-open HB1 group, and its highlight is then excluded from the general
items as already used. -/
theorem c1_amended :
    extract_bills_with_details slC1 = ([("HB1", ["Public testimony", "Overview"])], []) := by
  decide

/-! ## C3 -/

/-- C3: the claim says the identifier is a direct concatenation with no
delimiter characters between the components; the code inserts a literal
hyphen between the chamber code and the sponsor code, so the two
disagree on a record with all components present. -/
theorem c3_counterexample :
    generate_custom_id mC3 = "S-FIN20250422133000" ∧
      claimStableId mC3 = "SFIN20250422133000" ∧
      generate_custom_id mC3 ≠ claimStableId mC3 := by
  decide

/-- C3 amended: the identifier is the literal sentinel when date or time is
absent, and otherwise the concatenation of the chamber code, a literal
hyphen, the sponsor code, the date with all hyphens removed and the time
with all colons removed, with no other delimiters. -/
theorem c3_amended (m : Meeting) :
    generate_custom_id m =
      (if m.meetingDate = "" ∨ m.meetingTime = "" then "unknown"
       else m.chamber ++ "-" ++ m.meetingSponsor ++
         String.mk (m.meetingDate.data.filter fun c => c ≠ '-') ++
         String.mk (m.meetingTime.data.filter fun c => c ≠ ':')) := by
  unfold generate_custom_id
  by_cases h : m.meetingDate = "" ∨ m.meetingTime = ""
  · simp [h]
  · simp only [h, if_false]
    have hd : pyReplace m.meetingDate "-" "" =
        String.mk (m.meetingDate.data.filter fun c => c ≠ '-') := by
      unfold pyReplace pyReplaceL
      rw [show ("-" : String).data = ['-'] from rfl, show ("" : String).data = [] from rfl]
      rw [pyReplaceGo_single_nil '-' m.meetingDate.data m.meetingDate.data.length (le_refl _)]
    have ht : pyReplace m.meetingTime ":" "" =
        String.mk (m.meetingTime.data.filter fun c => c ≠ ':') := by
      unfold pyReplace pyReplaceL
      rw [show (":" : String).data = [':'] from rfl, show ("" : String).data = [] from rfl]
      rw [pyReplaceGo_single_nil ':' m.meetingTime.data m.meetingTime.data.length (le_refl _)]
    rw [hd, ht]

/-! ## Aggregator invariants -/

/-- One aggregator step preserves the origin-and-used invariant. -/
theorem aggStep_inv (univ : List Slice) (st : AggSt) (s : Slice) (hs : s ∈ univ)
    (h : AggInv univ st) : AggInv univ (aggStep st s) := by
  obtain ⟨bd, cb, cd, ud⟩ := st
  obtain ⟨h1, h2⟩ := h
  dsimp only at h1 h2
  simp only [aggStep, aggNewBill, aggAddDetail]
  split_ifs
  · exact ⟨h1, h2⟩
  · -- new bill with flush, detail added
    rename_i h0 hb hf ha
    dsimp only
    refine ⟨?_, ?_⟩
    · intro b ds hm d hd
      rcases List.mem_append.mp hm with hm1 | hm1
      · obtain ⟨ho, hu⟩ := h1 b ds hm1 d hd
        exact ⟨ho, List.mem_append.mpr (Or.inl hu)⟩
      · have hpair : b = cb ∧ ds = cd := by simpa using hm1
        obtain ⟨rfl, rfl⟩ := hpair
        obtain ⟨ho, hu⟩ := h2 d hd
        exact ⟨ho, List.mem_append.mpr (Or.inl hu)⟩
    · intro d hd
      have hdm : d = s.sliceHighliteText := by simpa using hd
      subst hdm
      exact ⟨⟨s, hs, rfl, Or.inl rfl⟩,
        List.mem_append.mpr (Or.inr (by simp))⟩
  · -- new bill with flush, no detail added
    rename_i h0 hb hf ha
    dsimp only
    refine ⟨?_, ?_⟩
    · intro b ds hm d hd
      rcases List.mem_append.mp hm with hm1 | hm1
      · exact h1 b ds hm1 d hd
      · have hpair : b = cb ∧ ds = cd := by simpa using hm1
        obtain ⟨rfl, rfl⟩ := hpair
        exact h2 d hd
    · intro d hd
      simp at hd
  · -- new bill without flush, detail added
    rename_i h0 hb hf ha
    dsimp only
    refine ⟨?_, ?_⟩
    · intro b ds hm d hd
      obtain ⟨ho, hu⟩ := h1 b ds hm d hd
      exact ⟨ho, List.mem_append.mpr (Or.inl hu)⟩
    · intro d hd
      have hdm : d = s.sliceHighliteText := by simpa using hd
      subst hdm
      exact ⟨⟨s, hs, rfl, Or.inl rfl⟩,
        List.mem_append.mpr (Or.inr (by simp))⟩
  · -- new bill without flush, no detail added
    rename_i h0 hb hf ha
    dsimp only
    refine ⟨?_, ?_⟩
    · intro b ds hm d hd
      exact h1 b ds hm d hd
    · intro d hd
      simp at hd
  · -- same (or empty) bill, detail added
    rename_i h0 hb ha
    dsimp only
    refine ⟨?_, ?_⟩
    · intro b ds hm d hd
      obtain ⟨ho, hu⟩ := h1 b ds hm d hd
      exact ⟨ho, List.mem_append.mpr (Or.inl hu)⟩
    · intro d hd
      rcases List.mem_append.mp hd with hd1 | hd1
      · obtain ⟨ho, hu⟩ := h2 d hd1
        exact ⟨ho, List.mem_append.mpr (Or.inl hu)⟩
      · have hdm : d = s.sliceHighliteText := by simpa using hd1
        subst hdm
        have hbr : s.billRoot = cb ∨ s.billRoot = "" := by
          by_cases hbe : s.billRoot = ""
          · exact Or.inr hbe
          · left
            by_contra hne
            exact hb ⟨hbe, hne⟩
        exact ⟨⟨s, hs, rfl, hbr⟩, List.mem_append.mpr (Or.inr (by simp))⟩
  · -- nothing happens
    exact ⟨h1, h2⟩

/-- Folding the aggregator step over slices of the sequence preserves the
invariant. -/
theorem aggFold_inv (univ : List Slice) :
    ∀ (l : List Slice) (st : AggSt), (∀ x ∈ l, x ∈ univ) → AggInv univ st →
      AggInv univ (l.foldl aggStep st)
  | [], _, _, h => h
  | x :: xs, st, hsub, h => by
    rw [List.foldl_cons]
    exact aggFold_inv univ xs (aggStep st x)
      (fun y hy => hsub y (List.mem_cons_of_mem x hy))
      (aggStep_inv univ st x (hsub x (List.mem_cons_self x xs)) h)

/-- Anything the second pass adds to the general items is not in the used
set. -/
theorem genFold_not_used (used : List String) :
    ∀ (l : List Slice) (acc : List String) (d : String),
      d ∈ l.foldl (genStep used) acc → d ∈ acc ∨ d ∉ used
  | [], _, _, h => Or.inl h
  | x :: xs, acc, d, h => by
    rw [List.foldl_cons] at h
    rcases genFold_not_used used xs (genStep used acc x) d h with h1 | h1
    · unfold genStep at h1
      split_ifs at h1 with hc
      · rcases List.mem_append.mp h1 with h2 | h2
        · exact Or.inl h2
        · have hdx : d = x.sliceHighliteText := by simpa using h2
          subst hdx
          exact Or.inr hc.2.2.2.1
      · exact Or.inl h1
    · exact Or.inr h1

/-- One aggregator step either keeps the flushed groups or flushes the
current, non-empty group. -/
theorem aggStep_billDetails (st : AggSt) (s : Slice) :
    (aggStep st s).billDetails = st.billDetails ∨
      ((aggStep st s).billDetails = st.billDetails ++ [(st.currentBill, st.currentDetails)]
        ∧ st.currentBill ≠ "" ∧ st.currentDetails ≠ []) := by
  obtain ⟨bd, cb, cd, ud⟩ := st
  simp only [aggStep, aggNewBill, aggAddDetail]
  split_ifs <;> simp_all

/-- Every flushed group stays non-empty across the fold. -/
theorem aggFold_groups :
    ∀ (l : List Slice) (st : AggSt), (∀ q ∈ st.billDetails, q.2 ≠ []) →
      ∀ q ∈ (l.foldl aggStep st).billDetails, q.2 ≠ []
  | [], _, h => h
  | x :: xs, st, h => by
    rw [List.foldl_cons]
    refine aggFold_groups xs (aggStep st x) ?_
    intro q hq
    rcases aggStep_billDetails st x with he | ⟨he, _, hcd⟩
    · rw [he] at hq
      exact h q hq
    · rw [he] at hq
      rcases List.mem_append.mp hq with h1 | h1
      · exact h q h1
      · have hqq : q = (st.currentBill, st.currentDetails) := by simpa using h1
        rw [hqq]
        exact hcd

/-! ## C2 -/

/-- C2: the claim requires every detail of a bill group to originate from a
slice bearing that exact bill identifier; on the example sequence the
detail Overview sits in the HB1 group although no slice with bill
identifier HB1 carries it, so the claim is false. -/
theorem c2_counterexample :
    (∃ p ∈ (extract_bills_with_details slC1).1, p.1 = "HB1" ∧ "Overview" ∈ p.2) ∧
      ∀ s ∈ slC1, ¬(s.billRoot = "HB1" ∧ s.sliceHighliteText = "Overview") := by
  decide

/-- C2 amended: every detail of a bill group originates from a slice whose
bill identifier equals the group's bill identifier or is empty (a bill-less
slice reached while that group is current contributes its highlight to the
group), and no detail of any bill group also appears in the general-items
output. -/
theorem c2_amended (slices : List Slice) (b : String) (ds : List String) (d : String)
    (hmem : (b, ds) ∈ (extract_bills_with_details slices).1) (hd : d ∈ ds) :
    (∃ s, s ∈ slices ∧ s.sliceHighliteText = d ∧ (s.billRoot = b ∨ s.billRoot = "")) ∧
      d ∉ (extract_bills_with_details slices).2 := by
  have hinv : AggInv slices (slices.foldl aggStep ⟨[], "", [], []⟩) := by
    refine aggFold_inv slices slices ⟨[], "", [], []⟩ (fun x hx => hx) ⟨?_, ?_⟩
    · intro b ds hm
      simp at hm
    · intro d hd
      simp at hd
  obtain ⟨hi1, hi2⟩ := hinv
  have hused : Origin slices b d ∧ d ∈ (slices.foldl aggStep ⟨[], "", [], []⟩).usedDetails := by
    simp only [extract_bills_with_details] at hmem
    split_ifs at hmem with hfl
    · rcases List.mem_append.mp hmem with h1 | h1
      · exact hi1 b ds h1 d hd
      · have hpair : b = (slices.foldl aggStep ⟨[], "", [], []⟩).currentBill ∧
            ds = (slices.foldl aggStep ⟨[], "", [], []⟩).currentDetails := by
          simpa using h1
        obtain ⟨rfl, hds⟩ := hpair
        exact hi2 d (hds ▸ hd)
    · exact hi1 b ds hmem d hd
  refine ⟨hused.1, ?_⟩
  intro hgen
  simp only [extract_bills_with_details] at hgen
  rcases genFold_not_used (slices.foldl aggStep ⟨[], "", [], []⟩).usedDetails slices [] d hgen
    with h1 | h1
  · simp at h1
  · exact h1 hused.2

/-- C2 amended, witness: on the example sequence, the detail
Public testimony of the HB1 group originates from a slice and is not a
general item. -/
theorem c2_witness :
    (∃ s, s ∈ slC1 ∧ s.sliceHighliteText = "Public testimony" ∧
        (s.billRoot = "HB1" ∨ s.billRoot = "")) ∧
      "Public testimony" ∉ (extract_bills_with_details slC1).2 :=
  c2_amended slC1 "HB1" ["Public testimony", "Overview"] "Public testimony"
    (by decide) (by decide)

/-! ## C5 -/

/-- C5: the claim says a bill whose slices contribute zero accumulated
details appears in neither output; on this sequence the bill HB1
accumulates no details (no bill group is emitted at all), yet the string
HB1 appears in the general items, contributed by a bill-less slice whose
highlight text coincides with the bill identifier. -/
theorem c5_counterexample :
    (∃ s ∈ slC5, s.billRoot = "HB1") ∧
      extract_bills_with_details slC5 = ([], ["HB1"]) ∧
      "HB1" ∈ (extract_bills_with_details slC5).2 := by
  decide

/-- C5 amended: every bill group emitted by the Slice Aggregator carries at
least one detail, so a bill identifier whose slices contribute zero
accumulated details appears as the bill of no group in the bill-group
output; it can still appear verbatim among the general items when a
bill-less slice carries the same string as highlight text. -/
theorem c5_amended (slices : List Slice) (b : String) (ds : List String)
    (h : (b, ds) ∈ (extract_bills_with_details slices).1) : ds ≠ [] := by
  have hb := aggFold_groups slices ⟨[], "", [], []⟩ (by simp)
  simp only [extract_bills_with_details] at h
  split_ifs at h with hfl
  · rcases List.mem_append.mp h with h1 | h1
    · exact hb (b, ds) h1
    · have hds : ds = (slices.foldl aggStep ⟨[], "", [], []⟩).currentDetails := by
        have : b = (slices.foldl aggStep ⟨[], "", [], []⟩).currentBill ∧
            ds = (slices.foldl aggStep ⟨[], "", [], []⟩).currentDetails := by simpa using h1
        exact this.2
      rw [hds]
      exact hfl.2
  · exact hb (b, ds) h

/-- C5 amended, witness: the HB1 group of the example sequence has a
non-empty detail list. -/
theorem c5_witness : (["Public testimony", "Overview"] : List String) ≠ [] :=
  c5_amended slC1 "HB1" ["Public testimony", "Overview"] (by decide)

/-! ## C6 -/

/-- C6: the claim takes the short title from the first slice with that bill
and a non-empty short title; the code breaks at the first slice with that
bill that has a ShortTitle key at all, even when its value is empty, so on
a meeting whose first HB1 slice carries an empty ShortTitle the rendering
lacks the later non-empty title and differs from the claimed rendering. -/
theorem c6_counterexample :
    ("HB1", ["testimony", "more"]) ∈ (extract_bills_with_details mC6.meetingSlices).1 ∧
      billText mC6.meetingSlices ("HB1", ["testimony", "more"]) = "HB1 testimony more" ∧
      claimBillRender mC6.meetingSlices ("HB1", ["testimony", "more"]) =
        "HB1 An Act testimony more" ∧
      billText mC6.meetingSlices ("HB1", ["testimony", "more"]) ≠
        claimBillRender mC6.meetingSlices ("HB1", ["testimony", "more"]) ∧
      build_description mC6 false = "Bills: HB1 testimony more" := by
  decide

/-- C6 amended: for every bill group with at least one detail the
Description Builder takes the short title from the first slice in the
original sequence that carries the group's bill identifier and has a
ShortTitle key at all (even an empty one, in which case no short title is
rendered), and renders the group as the bill, the short title when that
value is non-empty, and the space-joined details. -/
theorem c6_amended (m : Meeting) (p : String × List String)
    (hmem : p ∈ (extract_bills_with_details m.meetingSlices).1) (hne : p.2 ≠ []) :
    billText m.meetingSlices p =
      (if amendedShortTitle p.1 m.meetingSlices ≠ "" then
        p.1 ++ " " ++ amendedShortTitle p.1 m.meetingSlices ++ " " ++
          String.intercalate " " p.2
       else p.1 ++ " " ++ String.intercalate " " p.2) := by
  simp only [billText, if_pos hne, findShortTitle_eq]
  by_cases hst : amendedShortTitle p.1 m.meetingSlices = ""
  · simp [hst]
  · simp [hst]

/-- C6 amended, witness: instantiated on the meeting whose first HB1 slice
has an empty ShortTitle value. -/
theorem c6_witness :
    billText mC6.meetingSlices ("HB1", ["testimony", "more"]) =
      (if amendedShortTitle "HB1" mC6.meetingSlices ≠ "" then
        "HB1" ++ " " ++ amendedShortTitle "HB1" mC6.meetingSlices ++ " " ++
          String.intercalate " " ["testimony", "more"]
       else "HB1" ++ " " ++ String.intercalate " " ["testimony", "more"]) :=
  c6_amended mC6 ("HB1", ["testimony", "more"]) (by decide) (by decide)

/-! ## C4 -/

/-- The per-meeting row of the broadcast formatter is produced exactly when
the meeting passes the Event Filter, has a date and a time, parses jointly,
and its stable identifier is a key of the encoder mapping. -/
theorem invintusRow_ne_none_iff (encoders categories : List (String × String))
    (runtime ltbValue : String) (m : Meeting) :
    (invintusRow encoders categories runtime ltbValue m ≠ none) ↔
      (should_skip_event m = false ∧ m.meetingDate ≠ "" ∧ m.meetingTime ≠ "" ∧
        (parseYmdHms (m.meetingDate ++ " " ++ m.meetingTime)).isSome = true ∧
        (encoders.lookup (generate_custom_id m)).isSome = true) := by
  unfold invintusRow
  by_cases h1 : should_skip_event m
  · simp [h1]
  · by_cases h2 : m.meetingDate = "" ∨ m.meetingTime = ""
    · rcases h2 with h2 | h2 <;> simp [h1, h2]
    · push_neg at h2
      cases hp : parseYmdHms (m.meetingDate ++ " " ++ m.meetingTime) with
      | none => simp [h1, h2.1, h2.2, hp]
      | some dt =>
        cases he : (encoders.lookup (generate_custom_id m)) with
        | none => simp [h1, h2.1, h2.2, hp, he]
        | some v => simp [h1, h2.1, h2.2, hp, he]

/-- C4: the broadcast-dialect formatter emits a data row for a record if
and only if the record is not filtered by the Event Filter, its date and
time are both present and jointly parseable into the canonical form, and
its stable identifier is a key of the encoder selection mapping; the
formatter is a total function, so a failing record produces zero rows and
no error. -/
theorem c4_row_iff (m : Meeting) (encoders categories : List (String × String))
    (runtime : String) (ltb : Bool) :
    (format_meetings_invintus_csv [m] encoders categories runtime ltb).drop 1 ≠ [] ↔
      (should_skip_event m = false ∧ m.meetingDate ≠ "" ∧ m.meetingTime ≠ "" ∧
        (parseYmdHms (m.meetingDate ++ " " ++ m.meetingTime)).isSome = true ∧
        (encoders.lookup (generate_custom_id m)).isSome = true) := by
  rw [← invintusRow_ne_none_iff encoders categories runtime
    (if ltb then "TRUE" else "FALSE") m]
  cases hrow : invintusRow encoders categories runtime
      (if ltb then "TRUE" else "FALSE") m with
  | none => simp [format_meetings_invintus_csv, hrow]
  | some r => simp [format_meetings_invintus_csv, hrow]

/-! ## C8 -/

/-- C8: in the generic-dialect formatter the time column of a record is the
combined formatted date-time when date and time are both present and
jointly parseable, the literal raw concatenation when both are present but
jointly unparseable, and the empty string when either is absent. -/
theorem c8_time_column (m : Meeting) (h : should_skip_event m = false) :
    (format_meetings_csv [m] false).drop 1 = [csvRow false m] ∧
      (csvRow false m).get? 3 = some (
        if m.meetingDate ≠ "" ∧ m.meetingTime ≠ "" then
          match parseYmdHms (m.meetingDate ++ " " ++ m.meetingTime) with
          | some dt => formatGenericDT dt
          | none => m.meetingDate ++ " " ++ m.meetingTime
        else "") := by
  constructor
  · simp [format_meetings_csv, h]
  · rfl

/-- C8, witness: instantiated on a concrete parseable record. -/
theorem c8_witness :
    (format_meetings_csv [mC3] false).drop 1 = [csvRow false mC3] ∧
      (csvRow false mC3).get? 3 = some (
        if mC3.meetingDate ≠ "" ∧ mC3.meetingTime ≠ "" then
          match parseYmdHms (mC3.meetingDate ++ " " ++ mC3.meetingTime) with
          | some dt => formatGenericDT dt
          | none => mC3.meetingDate ++ " " ++ mC3.meetingTime
        else "") :=
  c8_time_column mC3 (by decide)

/-! ## C9 -/

/-- C9: the range fetch returns a descriptive error, without consulting the
per-day fetch function, whenever either date fails to parse as MM/DD/YYYY
or the requested span exceeds thirty days. -/
theorem c9_rejects {α : Type} (f g : String → α) (d1 d2 : String)
    (h : parseMdY d1 = none ∨ parseMdY d2 = none ∨
      ∃ s e, parseMdY d1 = some s ∧ parseMdY d2 = some e ∧
        (toOrdinal e : Int) - (toOrdinal s : Int) > 30) :
    (∃ msg, get_meeting_range f d1 d2 = Except.error msg) ∧
      get_meeting_range f d1 d2 = get_meeting_range g d1 d2 := by
  unfold get_meeting_range
  rcases h with h1 | h1 | ⟨s, e, hs, he, hspan⟩
  · cases hd2 : parseMdY d2 <;> simp [h1, hd2]
  · cases hd1 : parseMdY d1 <;> simp [h1, hd1]
  · simp only [hs, he]
    rw [if_pos hspan, if_pos hspan]
    exact ⟨⟨_, rfl⟩, rfl⟩


/-- C9, witness: a malformed start date is rejected identically for two
different fetch functions. -/
theorem c9_witness :
    (∃ msg, get_meeting_range (fun _ => (0 : Nat)) "bad" "01/05/2025" = Except.error msg) ∧
      get_meeting_range (fun _ => (0 : Nat)) "bad" "01/05/2025" =
        get_meeting_range (fun _ => (1 : Nat)) "bad" "01/05/2025" :=
  c9_rejects (fun _ => (0 : Nat)) (fun _ => (1 : Nat)) "bad" "01/05/2025"
    (Or.inl (by decide))

/-! ## C10 -/

/-- C10: when both dates are well formed and the end date is strictly
earlier than the start date, the range fetch does not return an error: the
span check only rejects spans greater than thirty days, the day loop never
runs, and the result is the empty mapping, independently of the fetch
function. -/
theorem c10_empty_range {α : Type} (f g : String → α) (d1 d2 : String) (s e : DateV)
    (h1 : parseMdY d1 = some s) (h2 : parseMdY d2 = some e)
    (h3 : toOrdinal e < toOrdinal s) :
    get_meeting_range f d1 d2 = Except.ok [] ∧
      get_meeting_range f d1 d2 = get_meeting_range g d1 d2 := by
  have hspan : ¬((toOrdinal e : Int) - (toOrdinal s : Int) > 30) := by omega
  have key : ∀ (hf : String → α), get_meeting_range hf d1 d2 = Except.ok [] := by
    intro hf
    unfold get_meeting_range
    simp only [h1, h2]
    rw [if_neg hspan]
    congr 1
    rw [rangeLoop.eq_def]
    dsimp only
    rw [if_neg (Nat.not_le.mpr h3)]
  exact ⟨key f, (key f).trans (key g).symm⟩

/-- C10, witness: a one-day-reversed range yields the empty mapping for two
different fetch functions. -/
theorem c10_witness :
    get_meeting_range (fun _ => (0 : Nat)) "01/02/2025" "01/01/2025" = Except.ok [] ∧
      get_meeting_range (fun _ => (0 : Nat)) "01/02/2025" "01/01/2025" =
        get_meeting_range (fun _ => (1 : Nat)) "01/02/2025" "01/01/2025" :=
  c10_empty_range (fun _ => (0 : Nat)) (fun _ => (1 : Nat)) "01/02/2025" "01/01/2025"
    ⟨2025, 1, 2⟩ ⟨2025, 1, 1⟩ (by decide) (by decide) (by decide)

/-! ## C7 machinery: properties of the replace, strip and collapse steps -/

/-- The substring test agrees with list-infix. -/
theorem substrB_iff : ∀ (n l : List Char), substrB n l = true ↔ n <:+: l
  | n, [] => by
    simp [substrB, List.isPrefixOf_iff_prefix]
  | n, c :: cs => by
    rw [substrB, Bool.or_eq_true, List.isPrefixOf_iff_prefix, substrB_iff n cs,
      List.infix_cons_iff]

/-- Replacement without any occurrence of the pattern is the identity. -/
theorem pyReplaceGo_no_occ (old new : List Char) :
    ∀ (l : List Char) (fuel : Nat), substrB old l = false →
      pyReplaceGo old new fuel l = l
  | [], fuel, _ => by cases fuel <;> rfl
  | _ :: _, 0, _ => rfl
  | c :: cs, fuel + 1, h => by
    rw [substrB, Bool.or_eq_false_iff] at h
    show (if old.isPrefixOf (c :: cs) then
        new ++ pyReplaceGo old new fuel (cs.drop (old.length - 1))
      else c :: pyReplaceGo old new fuel cs) = c :: cs
    rw [h.1, if_neg (by simp), pyReplaceGo_no_occ old new cs fuel h.2]

/-- The collapse loop without any occurrence of the pattern is the
identity. -/
theorem collapseGo_no_occ (l : List Char) (fuel : Nat)
    (h : substrB sep4 l = false) : collapseGo fuel l = l := by
  cases fuel with
  | zero => rfl
  | succ f =>
    show (if substrB sep4 l then collapseGo f (pyReplaceL sep4 sep2 l) else l) = l
    rw [h, if_neg (by simp)]

/-- Replacement by a pattern at most as long never lengthens the list. -/
theorem pyReplaceGo_length_le (old new : List Char) (hlen : new.length ≤ old.length) :
    ∀ (fuel : Nat) (l : List Char),
      (pyReplaceGo old new fuel l).length ≤ l.length
  | fuel, [] => by cases fuel <;> simp [pyReplaceGo]
  | 0, _ :: _ => le_refl _
  | fuel + 1, c :: cs => by
    show (if old.isPrefixOf (c :: cs) then
        new ++ pyReplaceGo old new fuel (cs.drop (old.length - 1))
      else c :: pyReplaceGo old new fuel cs).length ≤ (c :: cs).length
    by_cases hp : old.isPrefixOf (c :: cs)
    · rw [if_pos hp]
      have hole : old.length ≤ cs.length + 1 :=
        by simpa using (List.isPrefixOf_iff_prefix.mp hp).length_le
      have h1 := pyReplaceGo_length_le old new hlen fuel (cs.drop (old.length - 1))
      have h2 : (cs.drop (old.length - 1)).length = cs.length - (old.length - 1) :=
        List.length_drop _ _
      simp only [List.length_append, List.length_cons]
      omega
    · rw [if_neg hp]
      have h1 := pyReplaceGo_length_le old new hlen fuel cs
      simp only [List.length_cons]
      omega

/-- Replacement by a strictly shorter pattern strictly shortens a list
containing an occurrence, given enough fuel. -/
theorem pyReplaceGo_length_lt (old new : List Char) (hlen : new.length < old.length) :
    ∀ (fuel : Nat) (l : List Char), substrB old l = true → l.length ≤ fuel →
      (pyReplaceGo old new fuel l).length < l.length
  | fuel, [], hocc, _ => by
    exfalso
    have h1 : old <:+: [] := (substrB_iff old []).mp hocc
    have h2 : old = [] := by simpa using h1
    rw [h2] at hlen
    simp at hlen
  | 0, c :: cs, _, hfuel => by simp at hfuel
  | fuel + 1, c :: cs, hocc, hfuel => by
    show (if old.isPrefixOf (c :: cs) then
        new ++ pyReplaceGo old new fuel (cs.drop (old.length - 1))
      else c :: pyReplaceGo old new fuel cs).length < (c :: cs).length
    by_cases hp : old.isPrefixOf (c :: cs)
    · rw [if_pos hp]
      have hole : old.length ≤ cs.length + 1 :=
        by simpa using (List.isPrefixOf_iff_prefix.mp hp).length_le
      have h1 := pyReplaceGo_length_le old new (le_of_lt hlen) fuel
        (cs.drop (old.length - 1))
      have h2 : (cs.drop (old.length - 1)).length = cs.length - (old.length - 1) :=
        List.length_drop _ _
      simp only [List.length_append, List.length_cons]
      omega
    · rw [if_neg hp]
      have hocc2 : substrB old cs = true := by
        rw [substrB, Bool.or_eq_true] at hocc
        rcases hocc with h | h
        · exact absurd h hp
        · exact h
      have h1 := pyReplaceGo_length_lt old new hlen fuel cs hocc2 (by simpa using hfuel)
      simp only [List.length_cons]
      omega

/-- After the collapse loop runs with enough fuel, no occurrence of the
collapsed pattern remains. -/
theorem collapseGo_complete :
    ∀ (fuel : Nat) (l : List Char), l.length ≤ fuel →
      substrB sep4 (collapseGo fuel l) = false
  | 0, l, hfuel => by
    have : l = [] := List.length_eq_zero.mp (Nat.le_zero.mp hfuel)
    subst this
    rfl
  | fuel + 1, l, hfuel => by
    show substrB sep4 (if substrB sep4 l then collapseGo fuel (pyReplaceL sep4 sep2 l)
        else l) = false
    by_cases hocc : substrB sep4 l = true
    · rw [hocc, if_pos rfl]
      have hlt : (pyReplaceL sep4 sep2 l).length < l.length :=
        pyReplaceGo_length_lt sep4 sep2 (by decide) l.length l hocc (le_refl _)
      exact collapseGo_complete fuel (pyReplaceL sep4 sep2 l) (by omega)
    · rw [Bool.not_eq_true] at hocc
      rw [hocc, if_neg (by simp)]
      exact hocc

/-- Replacement by a non-empty pattern maps non-empty lists to non-empty
lists. -/
theorem pyReplaceGo_ne_nil (old new : List Char) (hnew : new ≠ []) :
    ∀ (fuel : Nat) (l : List Char), l ≠ [] → pyReplaceGo old new fuel l ≠ []
  | _, [], h => absurd rfl h
  | 0, c :: cs, _ => by simp [pyReplaceGo]
  | fuel + 1, c :: cs, _ => by
    show (if old.isPrefixOf (c :: cs) then
        new ++ pyReplaceGo old new fuel (cs.drop (old.length - 1))
      else c :: pyReplaceGo old new fuel cs) ≠ []
    by_cases hp : old.isPrefixOf (c :: cs)
    · rw [if_pos hp]
      intro hcon
      exact hnew (List.append_eq_nil.mp hcon).1
    · rw [if_neg hp]
      simp

/-- A non-empty suffix has the same last element as the whole list. -/
theorem getLast?_of_suffix {r l : List Char} (h : r <:+ l) (hne : r ≠ []) :
    r.getLast? = l.getLast? := by
  obtain ⟨p, hp⟩ := h
  rw [← hp, List.getLast?_append_of_ne_nil p hne]

/-- The tail of a list with a whitespace-free last element, when non-empty,
also has a whitespace-free last element. -/
theorem lastOkL_of_cons {c : Char} {cs : List Char} (h : lastOkL (c :: cs))
    (hne : cs ≠ []) : lastOkL cs := by
  intro x hx
  exact h x ((getLast?_of_suffix ⟨[c], rfl⟩ hne).symm.trans hx).symm.symm

/-- Replacement of a pattern starting with a whitespace character keeps the
first character whitespace-free. -/
theorem pyReplaceGo_headOk (old new : List Char) (w : Char)
    (hw : old.head? = some w) (hws : pyWs w = true) :
    ∀ (fuel : Nat) (l : List Char), headOkL l → headOkL (pyReplaceGo old new fuel l)
  | fuel, [], h => by cases fuel <;> exact h
  | 0, c :: cs, h => h
  | fuel + 1, c :: cs, h => by
    show headOkL (if old.isPrefixOf (c :: cs) then
        new ++ pyReplaceGo old new fuel (cs.drop (old.length - 1))
      else c :: pyReplaceGo old new fuel cs)
    by_cases hp : old.isPrefixOf (c :: cs)
    · exfalso
      have hpre := List.isPrefixOf_iff_prefix.mp hp
      cases old with
      | nil => simp at hw
      | cons o os =>
        have how : o = w := by simpa using hw
        obtain ⟨t, htp⟩ := hpre
        rw [List.cons_append] at htp
        have hoc : o = c := (List.cons.inj htp).1
        have h1 : pyWs c = false := h c rfl
        rw [← hoc, how] at h1
        rw [h1] at hws
        exact absurd hws (by decide)
    · rw [if_neg hp]
      intro x hx
      have hxc : c = x := by simpa using hx
      rw [← hxc]
      exact h c rfl

/-- Replacement by a non-empty pattern ending in a non-whitespace character
keeps the last character whitespace-free. -/
theorem pyReplaceGo_lastOk (old new : List Char) (hnew : new ≠ [])
    (hnl : lastOkL new) :
    ∀ (fuel : Nat) (l : List Char), lastOkL l → lastOkL (pyReplaceGo old new fuel l)
  | fuel, [], h => by cases fuel <;> exact h
  | 0, c :: cs, h => h
  | fuel + 1, c :: cs, h => by
    show lastOkL (if old.isPrefixOf (c :: cs) then
        new ++ pyReplaceGo old new fuel (cs.drop (old.length - 1))
      else c :: pyReplaceGo old new fuel cs)
    by_cases hp : old.isPrefixOf (c :: cs)
    · rw [if_pos hp]
      by_cases hrn : cs.drop (old.length - 1) = []
      · rw [hrn]
        have hred : pyReplaceGo old new fuel [] = [] := by cases fuel <;> rfl
        rw [hred, List.append_nil]
        exact hnl
      · have hlr : lastOkL (cs.drop (old.length - 1)) := by
          intro x hx
          exact h x (((getLast?_of_suffix
            ((List.drop_suffix _ cs).trans ⟨[c], rfl⟩) hrn).symm.trans hx).symm.symm)
        have hrec := pyReplaceGo_lastOk old new hnew hnl fuel _ hlr
        intro x hx
        by_cases hrecn : pyReplaceGo old new fuel (cs.drop (old.length - 1)) = []
        · rw [hrecn, List.append_nil] at hx
          exact hnl x hx
        · rw [List.getLast?_append_of_ne_nil new hrecn] at hx
          exact hrec x hx
    · rw [if_neg hp]
      intro x hx
      by_cases hcs : cs = []
      · subst hcs
        have hred : pyReplaceGo old new fuel ([] : List Char) = [] := by
          cases fuel <;> rfl
        rw [hred] at hx
        have hxc : c = x := by simpa using hx
        rw [← hxc]
        exact h c (by simp)
      · have hrecn : pyReplaceGo old new fuel cs ≠ [] :=
          pyReplaceGo_ne_nil old new hnew fuel cs hcs
        have hlcs : lastOkL cs := lastOkL_of_cons h hcs
        have hrec := pyReplaceGo_lastOk old new hnew hnl fuel cs hlcs
        exact hrec x ((getLast?_of_suffix ⟨[c], rfl⟩ hrecn).trans hx)

/-- The collapse loop keeps the first character whitespace-free. -/
theorem collapseGo_headOk :
    ∀ (fuel : Nat) (l : List Char), headOkL l → headOkL (collapseGo fuel l)
  | 0, _, h => h
  | fuel + 1, l, h => by
    show headOkL (if substrB sep4 l then collapseGo fuel (pyReplaceL sep4 sep2 l) else l)
    by_cases hocc : substrB sep4 l = true
    · rw [hocc, if_pos rfl]
      exact collapseGo_headOk fuel _
        (pyReplaceGo_headOk sep4 sep2 ' ' (by decide) (by decide) l.length l h)
    · rw [Bool.not_eq_true] at hocc
      rw [hocc, if_neg (by simp)]
      exact h

/-- The collapse loop keeps the last character whitespace-free. -/
theorem collapseGo_lastOk :
    ∀ (fuel : Nat) (l : List Char), lastOkL l → lastOkL (collapseGo fuel l)
  | 0, _, h => h
  | fuel + 1, l, h => by
    show lastOkL (if substrB sep4 l then collapseGo fuel (pyReplaceL sep4 sep2 l) else l)
    by_cases hocc : substrB sep4 l = true
    · rw [hocc, if_pos rfl]
      have hsep2 : lastOkL sep2 := by
        intro c hc
        have h2 : sep2.getLast? = some '|' := by decide
        rw [h2] at hc
        have : c = '|' := (Option.some.inj hc).symm
        subst this
        rfl
      exact collapseGo_lastOk fuel _
        (pyReplaceGo_lastOk sep4 sep2 (by decide) hsep2 l.length l h)
    · rw [Bool.not_eq_true] at hocc
      rw [hocc, if_neg (by simp)]
      exact h

/-- Dropping leading whitespace leaves a whitespace-free first
character. -/
theorem dropWhile_headOk (l : List Char) : headOkL (l.dropWhile pyWs) := by
  intro c
  induction l with
  | nil => intro hc; simp at hc
  | cons x xs ih =>
    intro hc
    rw [List.dropWhile_cons] at hc
    by_cases hx : pyWs x = true
    · rw [if_pos hx] at hc
      exact ih hc
    · rw [if_neg hx] at hc
      have : x = c := by simpa using hc
      subst this
      simpa using hx

/-- The stripped list starts with a non-whitespace character. -/
theorem pyStripL_headOk (l : List Char) : headOkL (pyStripL l) := by
  intro c hc
  rw [pyStripL, List.head?_reverse] at hc
  have hXne : (l.dropWhile pyWs).reverse.dropWhile pyWs ≠ [] := by
    intro hnil
    rw [hnil] at hc
    simp at hc
  rw [getLast?_of_suffix (List.dropWhile_suffix pyWs) hXne, List.getLast?_reverse] at hc
  exact dropWhile_headOk l c hc

/-- The stripped list ends with a non-whitespace character. -/
theorem pyStripL_lastOk (l : List Char) : lastOkL (pyStripL l) := by
  intro c hc
  rw [pyStripL, List.getLast?_reverse] at hc
  exact dropWhile_headOk _ c hc

/-- Dropping leading whitespace from a list whose first character is not
whitespace does nothing. -/
theorem dropWhile_eq_self_of_headOk {l : List Char} (h : headOkL l) :
    l.dropWhile pyWs = l := by
  cases l with
  | nil => rfl
  | cons c cs =>
    rw [List.dropWhile_cons, if_neg (by simp [h c rfl])]

/-- Stripping a list with whitespace-free ends does nothing. -/
theorem pyStripL_eq_self {l : List Char} (h1 : headOkL l) (h2 : lastOkL l) :
    pyStripL l = l := by
  rw [pyStripL, dropWhile_eq_self_of_headOk h1]
  have hrev : headOkL l.reverse := by
    intro c hc
    rw [List.head?_reverse] at hc
    exact h2 c hc
  rw [dropWhile_eq_self_of_headOk hrev, List.reverse_reverse]

/-- A list with a whitespace-free last character does not end in a
separator with a trailing space. -/
theorem no_sep3_end_of_lastOk {l : List Char} (h : lastOkL l) :
    sep3.isSuffixOf l = false := by
  by_contra hcon
  rw [Bool.not_eq_false] at hcon
  have hsfx : sep3 <:+ l := List.isSuffixOf_iff_suffix.mp hcon
  have hl : l.getLast? = some ' ' := by
    rw [← getLast?_of_suffix hsfx (by decide)]
    decide
  exact absurd (h ' ' hl) (by decide)

/-- The final trailing-separator branch of the strip never fires: the strip
is the collapse of the stripped, once-replaced list. -/
theorem stripStreamingL_eq_collapse (l : List Char) :
    stripStreamingL l =
      collapseGo (pyStripL (pyReplaceL sep6 sep3 (pyReplaceL aklMarker [] l))).length
        (pyStripL (pyReplaceL sep6 sep3 (pyReplaceL aklMarker [] l))) := by
  have h4l : lastOkL (collapseGo
      (pyStripL (pyReplaceL sep6 sep3 (pyReplaceL aklMarker [] l))).length
      (pyStripL (pyReplaceL sep6 sep3 (pyReplaceL aklMarker [] l)))) :=
    collapseGo_lastOk _ _ (pyStripL_lastOk _)
  simp only [stripStreamingL]
  rw [no_sep3_end_of_lastOk h4l]
  simp

/-! ## C7 -/

/-- C7: the claim asserts idempotence of the streaming-annotation strip for
every description string; on the string with three adjacent separators a
single pass leaves a collapsible artifact that a second pass removes, so
applying the strip twice differs from applying it once. -/
theorem c7_counterexample :
    stripStreaming "a |  |  | b" = "a |  | b" ∧
      stripStreaming (stripStreaming "a |  |  | b") = "a | b" ∧
      stripStreaming (stripStreaming "a |  |  | b") ≠ stripStreaming "a |  |  | b" := by
  decide

/-- C7 amended: the strip is not idempotent in general; it is idempotent on
every string whose single application leaves no occurrence of the streaming
marker and no occurrence of the six-character separator artifact, because
the once-stripped output has whitespace-free ends, contains no collapsible
four-character artifact, and every stage of a second pass is then the
identity. -/
theorem c7_amended (s : String)
    (hm : substrB aklMarker (stripStreaming s).data = false)
    (h6 : substrB sep6 (stripStreaming s).data = false) :
    stripStreaming (stripStreaming s) = stripStreaming s := by
  have hm' : substrB aklMarker (stripStreamingL s.data) = false := hm
  have h6' : substrB sep6 (stripStreamingL s.data) = false := h6
  have hth : headOkL (stripStreamingL s.data) := by
    rw [stripStreamingL_eq_collapse]
    exact collapseGo_headOk _ _ (pyStripL_headOk _)
  have htl : lastOkL (stripStreamingL s.data) := by
    rw [stripStreamingL_eq_collapse]
    exact collapseGo_lastOk _ _ (pyStripL_lastOk _)
  have hts4 : substrB sep4 (stripStreamingL s.data) = false := by
    rw [stripStreamingL_eq_collapse]
    exact collapseGo_complete _ _ (le_refl _)
  have main : ∀ t : List Char, substrB aklMarker t = false → substrB sep6 t = false →
      headOkL t → lastOkL t → substrB sep4 t = false → stripStreamingL t = t := by
    intro t htm ht6 hh hl h4
    have e1 : pyReplaceL aklMarker [] t = t := by
      rw [pyReplaceL]
      exact pyReplaceGo_no_occ _ _ _ _ htm
    have e2 : pyReplaceL sep6 sep3 t = t := by
      rw [pyReplaceL]
      exact pyReplaceGo_no_occ _ _ _ _ ht6
    have e3 : pyStripL t = t := pyStripL_eq_self hh hl
    have e4 : collapseGo t.length t = t := collapseGo_no_occ _ _ h4
    simp only [stripStreamingL, e1, e2, e3, e4]
    rw [no_sep3_end_of_lastOk hl]
    simp
  show (⟨stripStreamingL (stripStreamingL s.data)⟩ : String) = ⟨stripStreamingL s.data⟩
  rw [main (stripStreamingL s.data) hm' h6' hth htl hts4]

/-- C7 amended, witness: a description without streaming artifacts is
stripped idempotently. -/
theorem c7_witness :
    substrB aklMarker (stripStreaming "New business | Adjourn").data = false ∧
      substrB sep6 (stripStreaming "New business | Adjourn").data = false ∧
      stripStreaming (stripStreaming "New business | Adjourn") =
        stripStreaming "New business | Adjourn" :=
  ⟨by decide, by decide, c7_amended "New business | Adjourn" (by decide) (by decide)⟩
